import Mathlib

/-!
Verification of the refiners IP-Adapter / DDIM sources against their
natural-language specification.

The module graph (`refiners.fluxion` chains, adapters) is embedded as a
tree of nodes with identity tags; identity of Python objects is modelled
by the identity tag, so "element-wise identical by object identity" is
element-wise equality of trees carrying unique tags.

The `Chain` primitives (`insert`, `pop`, `replace`) and the base
`Adapter.inject` / `Adapter.eject` are not part of the packaged sources
(only their callers in `image_prompt.py` are), so they are modelled from
the spec (sections 3 and 4.3); everything layered on top
(`IPAdapter.inject`, `IPAdapter.eject`, weight loading, scale
propagation, `compute_image_embedding`, the DDIM scheduler) is translated
from the source files.
-/

namespace Refiners

/-- A module node of the computation graph: an identity tag, a kind
(Python class name) and the ordered list of children.  Leaf modules have
no children.  Modelled from the spec: section 3, `Module` / `Chain`
("owns its ordered children", "locate first descendant", "replace a
specific child in place, insert/remove at an index"). -/
inductive Mod : Type where
  | node (id : Nat) (kind : String) (children : List Mod)

mutual

/-- Decidable equality of module trees. -/
def Mod.decEq : (a b : Mod) → Decidable (a = b)
  | .node i k cs, .node j l ds =>
    match Nat.decEq i j with
    | isFalse h => isFalse (by intro he; cases he; exact h rfl)
    | isTrue hi =>
      match String.decEq k l with
      | isFalse h => isFalse (by intro he; cases he; exact h rfl)
      | isTrue hk =>
        match Mod.decEqL cs ds with
        | isFalse h => isFalse (by intro he; cases he; exact h rfl)
        | isTrue hc => isTrue (by rw [hi, hk, hc])

/-- Decidable equality of lists of module trees. -/
def Mod.decEqL : (a b : List Mod) → Decidable (a = b)
  | [], [] => isTrue rfl
  | [], _ :: _ => isFalse (by simp)
  | _ :: _, [] => isFalse (by simp)
  | c :: cs, d :: ds =>
    match Mod.decEq c d with
    | isFalse h => isFalse (by intro he; cases he; exact h rfl)
    | isTrue h1 =>
      match Mod.decEqL cs ds with
      | isFalse h => isFalse (by intro he; cases he; exact h rfl)
      | isTrue h2 => isTrue (by rw [h1, h2])

end

instance : DecidableEq Mod := Mod.decEq

/-- The identity tag of a module. -/
def Mod.id : Mod → Nat
  | .node i _ _ => i

/-- The kind (class name) of a module. -/
def Mod.kind : Mod → String
  | .node _ k _ => k

/-- The ordered children of a module. -/
def Mod.children : Mod → List Mod
  | .node _ _ cs => cs

/-- A default module value used for out-of-range list reads. -/
def defaultMod : Mod := .node 0 "" []

mutual

/-- Number of nodes (at any depth) carrying identity `x`. -/
def count (x : Nat) : Mod → Nat
  | .node i _ cs => (if i = x then 1 else 0) + countL x cs

/-- `count` over a list of trees. -/
def countL (x : Nat) : List Mod → Nat
  | [] => 0
  | c :: cs => count x c + countL x cs

end

mutual

/-- All subtrees (at any depth) whose root carries identity `x`. -/
def idNodes (x : Nat) : Mod → List Mod
  | .node i k cs => (if i = x then [Mod.node i k cs] else []) ++ idNodesL x cs

/-- `idNodes` over a list of trees. -/
def idNodesL (x : Nat) : List Mod → List Mod
  | [] => []
  | c :: cs => idNodes x c ++ idNodesL x cs

end

mutual

/-- Replace every maximal subtree whose root identity is `tid` by `new`.
Modelled from the spec: section 4.3, the adapter lifecycle replaces "the
target's slot in that parent" by the adapter; with unique identity tags
this functional update is the pointer swap of the mutable tree. -/
def replaceById (tid : Nat) (new : Mod) : Mod → Mod
  | .node i k cs => if i = tid then new else .node i k (replaceByIdL tid new cs)

/-- `replaceById` over a list of trees. -/
def replaceByIdL (tid : Nat) (new : Mod) : List Mod → List Mod
  | [] => []
  | c :: cs => replaceById tid new c :: replaceByIdL tid new cs

end

/-- The data a sub-adapter (`CrossAttentionAdapter`) holds: the identity
of its target attention module (`tid`), its own identity (`wid`), its own
chain `wrap` (the modified structural copy), and the recorded original
target subtree `orig` (source: `CrossAttentionAdapter.__init__`,
`setup_adapter`). -/
structure SubQ where
  tid : Nat
  wid : Nat
  wrap : Mod
  orig : Mod
deriving DecidableEq

/-- Injecting every sub-adapter in order: each replaces its target's
slot with the sub-adapter chain.  Modelled from the spec: section 4.3,
base `Adapter.inject` (the base class file is not in the packaged
sources). -/
def injectAll (qs : List SubQ) (t : Mod) : Mod :=
  qs.foldl (fun u q => replaceById q.tid q.wrap u) t

/-- Ejecting every sub-adapter in order: each restores its slot to the
recorded original target.  Modelled from the spec: section 4.3, base
`Adapter.eject`. -/
def ejectAll (qs : List SubQ) (t : Mod) : Mod :=
  qs.foldl (fun u q => replaceById q.wid q.orig u) t

/-- Structural well-formedness of a family of sub-adapters: pairwise
distinct identities, each sub-adapter chain carries its own identity and
records an original rooted at its target identity, and no sub-adapter
chain or recorded original contains another family member's target or
adapter identity below its root. -/
def QsOK (qs : List SubQ) : Prop :=
  List.Pairwise (fun a b => a.tid ≠ b.tid ∧ a.wid ≠ b.wid) qs ∧
  (∀ p ∈ qs, ∀ q ∈ qs, p.wid ≠ q.tid) ∧
  (∀ q ∈ qs, q.wrap.id = q.wid ∧ q.orig.id = q.tid) ∧
  (∀ p ∈ qs, ∀ q ∈ qs, countL q.tid p.wrap.children = 0 ∧
    countL q.wid p.wrap.children = 0) ∧
  (∀ p ∈ qs, ∀ q ∈ qs, countL q.tid p.orig.children = 0)

/-- Well-formedness of a family of sub-adapters relative to the tree they
live in: their own identities are fresh in the tree, and every node of
the tree carrying a target identity is the recorded original of that
sub-adapter (unique identities make the tag a faithful object identity). -/
def TreeOK (qs : List SubQ) (t : Mod) : Prop :=
  (∀ q ∈ qs, count q.wid t = 0) ∧
  (∀ q ∈ qs, ∀ s ∈ idNodes q.tid t, s = q.orig)

instance (qs : List SubQ) : Decidable (QsOK qs) := by
  unfold QsOK; infer_instance

instance (qs : List SubQ) (t : Mod) : Decidable (TreeOK qs t) := by
  unfold TreeOK; infer_instance

/-- `Chain.insert(index, module)`.  Modelled from the spec: section 3,
"insert/remove at an index". -/
def insertChild (t : Mod) (i : Nat) (m : Mod) : Mod :=
  .node t.id t.kind (t.children.insertIdx i m)

/-- `Chain.pop(index)`.  Modelled from the spec: section 3,
"insert/remove at an index". -/
def popChild (t : Mod) (i : Nat) : Mod :=
  .node t.id t.kind (t.children.eraseIdx i)

/-- One step of the adapter lifecycle, recorded in execution order.
`insertAux`/`popAux` carry the identity of the chain operated on. -/
inductive AdapterEv : Type where
  | injectSub (tid : Nat)
  | insertAux (containerId : Nat) (pos : Nat)
  | replaceParentSlot (idx : Nat)
  | ejectSub (tid : Nat)
  | popAux (containerId : Nat) (pos : Nat)
  | restoreParentSlot (idx : Nat)
deriving DecidableEq

/-- `IPAdapter.inject`, translated from `image_prompt.py` lines 538-543:
inject every sub-adapter in order, then — when
`use_pooled_text_embedding` is set — run
`self.target.insert(0, self.pooled_text_embedding_proj)`, then complete
the adapter's own injection (`super().inject()`: the target's slot `k`
in the parent's child list `cs` is replaced by the adapter chain, which
holds the target; base behaviour modelled from the spec section 4.3).
Returns the parent's new child list and the trace of operations in
execution order. -/
def IPAdapter.inject (qs : List SubQ) (usePooled : Bool) (proj : Mod)
    (aid : Nat) (cs : List Mod) (k : Nat) : List Mod × List AdapterEv :=
  let t := cs.getD k defaultMod
  let t1 := injectAll qs t
  let t2 := if usePooled then insertChild t1 0 proj else t1
  let ev2 : List AdapterEv := if usePooled then [.insertAux t1.id 0] else []
  (cs.set k (.node aid "IPAdapter" [t2]),
   qs.map (fun q => .injectSub q.tid) ++ ev2 ++ [.replaceParentSlot k])

/-- `IPAdapter.eject`, translated from `image_prompt.py` lines 545-550:
eject every sub-adapter in order, then — when
`use_pooled_text_embedding` is set — run `self.target.pop(0)`, then
complete the adapter's own ejection (`super().eject()`: slot `k` of the
parent's child list is restored to the target object; base behaviour
modelled from the spec section 4.3).  The target object is the single
child of the adapter chain sitting at slot `k`. -/
def IPAdapter.eject (qs : List SubQ) (usePooled : Bool)
    (cs : List Mod) (k : Nat) : List Mod × List AdapterEv :=
  let t2 := (cs.getD k defaultMod).children.getD 0 defaultMod
  let t3 := ejectAll qs t2
  let t4 := if usePooled then popChild t3 0 else t3
  let ev2 : List AdapterEv := if usePooled then [.popAux t3.id 0] else []
  (cs.set k t4,
   qs.map (fun q => .ejectSub q.tid) ++ ev2 ++ [.restoreParentSlot k])

/-- `ImageCrossAttention` as far as its scale behaviour goes: the Python
attribute `_scale` and the scale of the single `fl.Multiply` node ending
its chain (source `image_prompt.py` lines 247-359; the chain is
`Distribute`, `ScaledDotProductAttention`, `Multiply(self.scale)`).
Scales are numeric values; only assignment and propagation matter here,
no arithmetic. -/
structure ImageCrossAttention where
  _scale : ℚ
  multiplyScale : ℚ
deriving DecidableEq

/-- The `ImageCrossAttention.scale` setter (source lines 356-359): store
the value and push it into the `Multiply` node found by `ensure_find`
(the chain search is modelled by the `multiplyScale` field, the chain
holding exactly one `Multiply`). -/
def ImageCrossAttention.setScale (a : ImageCrossAttention) (value : ℚ) :
    ImageCrossAttention :=
  ⟨value, value⟩

/-- `CrossAttentionAdapter` scale state: its own `_scale` attribute and
its `ImageCrossAttention` (source lines 362-412). -/
structure CrossAttentionAdapterSc where
  _scale : ℚ
  image_cross_attention : ImageCrossAttention
deriving DecidableEq

/-- The `CrossAttentionAdapter.scale` setter (source lines 409-412):
store the value and set the `ImageCrossAttention` scale. -/
def CrossAttentionAdapterSc.setScale (c : CrossAttentionAdapterSc)
    (value : ℚ) : CrossAttentionAdapterSc :=
  ⟨value, c.image_cross_attention.setScale value⟩

/-- `IPAdapter` scale state: the ordered sub-adapters and the injection
flag (the latter is never consulted by the scale code). -/
structure IPAdapterSc where
  sub_adapters : List CrossAttentionAdapterSc
  injected : Bool
deriving DecidableEq

/-- The `IPAdapter.scale` setter (source lines 557-560): set every
sub-adapter's scale. -/
def IPAdapterSc.setScale (p : IPAdapterSc) (value : ℚ) : IPAdapterSc :=
  ⟨p.sub_adapters.map (fun c => c.setScale value), p.injected⟩

/-- The `IPAdapter.scale` getter (source lines 552-555):
`self.sub_adapters[0].scale`; indexing an empty list raises, hence
`Option`. -/
def IPAdapterSc.getScale (p : IPAdapterSc) : Option ℚ :=
  p.sub_adapters.head?.map (fun c => c._scale)

/-- A fatal weight-loading condition. -/
inductive LoadErr : Type where
  | weightMismatch
deriving DecidableEq

/-- Whether a strict state-dict load fails: some required parameter has
no supplied key, or some supplied key matches no parameter. -/
def strictMismatch (params : List String) (sd : List (String × Nat)) :
    Bool :=
  params.any (fun p => ! (sd.map Prod.fst).contains p)
    || sd.any (fun kv => ! params.contains kv.1)

/-- Modelled from the spec: section 4.4 — torch's `load_state_dict` is an
external collaborator; per the Weight Loader contract, under `strict` any
unmatched required parameter or leftover supplied key is fatal, otherwise
mismatches are reported but loading continues.  Array values are opaque
tags. -/
def load_state_dict (params : List String) (sd : List (String × Nat))
    (strict : Bool) : Except LoadErr Unit :=
  if strict && strictMismatch params sd then .error .weightMismatch
  else .ok ()

/-- Python `f"{i:03d}"`: zero-pad to at least three digits. -/
def pad3 (n : Nat) : String :=
  if n < 10 then "00" ++ toString n
  else if n < 100 then "0" ++ toString n
  else toString n

/-- Strip a leading character sequence, or fail if it is not a prefix
(executable model of `str.startswith` plus `removeprefix`). -/
def charsStrip? : List Char → List Char → Option (List Char)
  | [], s => some s
  | _ :: _, [] => none
  | p :: ps, c :: cs => if p = c then charsStrip? ps cs else none

/-- `k.removeprefix(pre)` guarded by `k.startswith(pre)`. -/
def stripPre (pre s : String) : Option String :=
  (charsStrip? pre.data s.data).map String.mk

/-- Restrict a flat weight map to one prefix block, stripping the prefix
(source `image_prompt.py` lines 497-499, 508-513, 518-522). -/
def blockDict (pre : String) (w : List (String × Nat)) :
    List (String × Nat) :=
  w.filterMap (fun kv => (stripPre pre kv.1).map (fun k => (k, kv.2)))

/-- The parameter names of the submodules an `IPAdapter` loads weights
onto. -/
structure IPWeightCfg where
  imageProjParams : List String
  subAdapterParams : List (List String)
  pooledParams : List String
  usePooled : Bool

/-- The weight-loading tail of `IPAdapter.__init__`, translated from
`image_prompt.py` lines 496-523: the `image_proj.` block is loaded
inside `try`/`except` whose handler prints the exception and continues
(the source comments this as a "Hack to go around image projection with
same weight name but different projection shape"); each
`ip_adapter.{i:03d}.` block is loaded with `strict=False`; the
`pooled_text_embedding_proj.` block, when `use_pooled_text_embedding`,
is loaded with the caller's `strict` flag and may raise.  Returns the
messages printed for swallowed errors. -/
def IPAdapter.loadWeights (cfg : IPWeightCfg)
    (weights : List (String × Nat)) (strict : Bool) :
    Except LoadErr (List String) :=
  let r1 := load_state_dict cfg.imageProjParams
    (blockDict "image_proj." weights) strict
  let printed := match r1 with
    | .error _ => ["image_proj mismatch printed and ignored"]
    | .ok _ => []
  let _subResults :=
    ((List.range cfg.subAdapterParams.length).zip
        cfg.subAdapterParams).map
      (fun iv => load_state_dict iv.2
        (blockDict ("ip_adapter." ++ pad3 iv.1 ++ ".") weights) false)
  if cfg.usePooled then
    match load_state_dict cfg.pooledParams
      (blockDict "pooled_text_embedding_proj." weights) strict with
    | .error e => .error e
    | .ok _ => .ok printed
  else .ok printed

/-- Decidable equality for `Except` results. -/
def exceptDecEq {e a : Type} [DecidableEq e] [DecidableEq a] :
    (x y : Except e a) → Decidable (x = y)
  | .error u, .error v =>
    if h : u = v then isTrue (by rw [h])
    else isFalse (fun he => h (by cases he; rfl))
  | .error _, .ok _ => isFalse (fun he => Except.noConfusion he)
  | .ok _, .error _ => isFalse (fun he => Except.noConfusion he)
  | .ok u, .ok v =>
    if h : u = v then isTrue (by rw [h])
    else isFalse (fun he => h (by cases he; rfl))

instance {e a : Type} [DecidableEq e] [DecidableEq a] :
    DecidableEq (Except e a) := exceptDecEq

/-- `DDIM._generate_timesteps` (source `ddim.py` lines 28-35):
`arange(0, num_inference_steps) * (num_train_timesteps //
num_inference_steps) + 1`, flipped to decreasing order. -/
def DDIM.generateTimesteps (numTrainTimesteps numInferenceSteps : Nat) :
    List Nat :=
  ((List.range numInferenceSteps).map
    (fun i => i * (numTrainTimesteps / numInferenceSteps) + 1)).reverse

/-- `DDIM.__call__` (source `ddim.py` lines 37-57) over exact rationals,
with the square root opaque (`torch.sqrt` is an external numeric
primitive; code and spec apply the same function) and the cumulative
scale factors given as a function of the training timestep (they are
computed by the `Scheduler` base class, an external collaborator here).
Tensor indexing out of range raises, hence `Option`; the sentinel branch
returns timestep `0` without indexing. -/
def DDIM.step (csf : Nat → ℚ) (sqrtF : ℚ → ℚ) (numInferenceSteps : Nat)
    (timesteps : List Nat) (x noise : ℚ) (step : Nat) : Option ℚ :=
  match timesteps[step]? with
  | none => none
  | some timestep =>
    match (if step < numInferenceSteps - 1 then timesteps[step + 1]?
           else some 0) with
    | none => none
    | some previousTimestep =>
      let currentScaleFactor := csf timestep
      let previousScaleFactor :=
        if previousTimestep > 0 then csf previousTimestep else csf 0
      let predictedX :=
        (x - sqrtF (1 - currentScaleFactor ^ 2) * noise)
          / currentScaleFactor
      some (previousScaleFactor * predictedX
        + sqrtF (1 - previousScaleFactor ^ 2) * noise)

/-- A numeric array of shape batch × sequence × dim, as nested lists of
exact rationals (the spec treats all numeric arrays as opaque values
passed between modules). -/
abbrev Tensor3 := List (List (List ℚ))

/-- `torch.zeros_like`. -/
def zerosLike (t : Tensor3) : Tensor3 :=
  t.map (fun m => m.map (fun r => r.map (fun _ => 0)))

/-- Entry-wise `/= div_factor`. -/
def divAll (t : Tensor3) (d : ℚ) : Tensor3 :=
  t.map (fun m => m.map (fun r => r.map (fun v => v / d)))

/-- `t * w.unsqueeze(-1).unsqueeze(-1)`: broadcast the per-batch weight
onto each batch entry. -/
def batchMul (w : List ℚ) (t : Tensor3) : Tensor3 :=
  List.zipWith (fun wi m => m.map (fun r => r.map (fun v => wi * v))) w t

/-- `cat(t.chunk(batch_size), dim=1)` at the shape it is applied to
(`batch_size` = the tensor's own batch length, so every chunk is a
single batch entry): one batch entry holding all rows in order.  Model
of the torch ops, which are external collaborators. -/
def chunkCatSeq (t : Tensor3) : Tensor3 := [t.flatten]

/-- Python exception kinds relevant to these sources. -/
inductive PyErr : Type where
  | nameError (n : String)
  | typeError (kw : String)
  | assertionError
deriving DecidableEq

/-- The external collaborators `compute_image_embedding` consults: the
selected image encoder, the image projection, the fine-grained flag and
the image preprocessor (spec section 6: encoders are consumed via
`apply(batch) -> embedding`). -/
structure IPEmbedEnv (Img : Type) where
  image_encoder : Tensor3 → Tensor3
  image_proj : Tensor3 → Tensor3
  fine_grained : Bool
  preprocess : Img → Tensor3

/-- `IPAdapter._compute_image_embedding` (source `image_prompt.py`
lines 636-648): encode, divide by `div_factor`, project; the negative
branch projects the zeroed embedding (pooled) or the embedding of the
zeroed input (fine-grained). -/
def IPAdapter.computeImageEmbeddingPair {Img : Type}
    (env : IPEmbedEnv Img) (image_prompt : Tensor3) (div_factor : ℚ) :
    Tensor3 × Tensor3 :=
  if !env.fine_grained then
    let image_embedding := divAll (env.image_encoder image_prompt)
      div_factor
    let conditional := env.image_proj image_embedding
    let negative := env.image_proj (zerosLike image_embedding)
    (negative, conditional)
  else
    let image_embedding := divAll (env.image_encoder image_prompt)
      div_factor
    let conditional := env.image_proj image_embedding
    let image_embedding2 := divAll
      (env.image_encoder (zerosLike image_prompt)) div_factor
    let negative := env.image_proj image_embedding2
    (negative, conditional)

/-- The three accepted forms of an image prompt. -/
inductive ImagePrompt (Img : Type) : Type where
  | tensor (t : Tensor3)
  | image (im : Img)
  | images (ims : List Img)

/-- `IPAdapter.compute_image_embedding` (source `image_prompt.py` lines
593-633): convert the prompt to a tensor (preprocessing single images,
concatenating a list along the batch axis), compute the
negative/conditional pair, check and apply the per-image weights to the
conditional branch, optionally concatenate per-image chunks along the
sequence axis, and return `cat((negative, conditional))`. -/
def IPAdapter.compute_image_embedding {Img : Type}
    (env : IPEmbedEnv Img) (image_prompt : ImagePrompt Img)
    (weights : Option (List ℚ)) (div_factor : ℚ)
    (concat_batches : Bool) : Except PyErr Tensor3 :=
  let t : Tensor3 := match image_prompt with
    | .tensor t => t
    | .image im => env.preprocess im
    | .images ims => (ims.map env.preprocess).flatten
  let pair := IPAdapter.computeImageEmbeddingPair env t div_factor
  let negative := pair.1
  let conditional := pair.2
  let batch_size := t.length
  match weights with
  | some w =>
    if decide (¬ w.length = batch_size) then .error .assertionError
    else
      let conditional :=
        if w.any (fun x => decide (¬ x = 1)) then batchMul w conditional
        else conditional
      if decide (1 < batch_size) && concat_batches then
        .ok (chunkCatSeq negative ++ chunkCatSeq conditional)
      else .ok (negative ++ conditional)
  | none =>
    if decide (1 < batch_size) && concat_batches then
      .ok (chunkCatSeq negative ++ chunkCatSeq conditional)
    else .ok (negative ++ conditional)

/-- C8's statement phrased from the spec: the result is the
concatenation `[negative; conditional]`; supplied per-image weights must
match the batch size and multiply only the conditional branch, applied
exactly when some weight differs from `1.0`; with a batch of more than
one image and `concat_batches`, the per-image chunks of each branch are
concatenated along the sequence axis before the final concatenation. -/
def compute_image_embedding_spec {Img : Type}
    (env : IPEmbedEnv Img) (image_prompt : ImagePrompt Img)
    (weights : Option (List ℚ)) (div_factor : ℚ)
    (concat_batches : Bool) : Except PyErr Tensor3 :=
  let t : Tensor3 := match image_prompt with
    | .tensor t => t
    | .image im => env.preprocess im
    | .images ims => (ims.map env.preprocess).flatten
  let pair := IPAdapter.computeImageEmbeddingPair env t div_factor
  let negative := pair.1
  let conditional := pair.2
  let batch_size := t.length
  let seqcat : Tensor3 → Tensor3 := fun u =>
    if decide (1 < batch_size) && concat_batches then chunkCatSeq u
    else u
  match weights with
  | some w =>
    if decide (¬ w.length = batch_size) then .error .assertionError
    else
      .ok (seqcat negative ++ seqcat
        (if w.any (fun x => decide (¬ x = 1)) then batchMul w conditional
         else conditional))
  | none => .ok (seqcat negative ++ seqcat conditional)

/-- The kinds of value an `image_proj` argument of
`SD1IPAdapter.__init__` can carry (annotation:
`ImageProjection | PerceiverResampler | None`). -/
inductive ProjKind : Type where
  | imageProjection
  | perceiverResampler
deriving DecidableEq

/-- The parameters `IPAdapter.__init__` accepts, in signature order
(source `image_prompt.py` lines 446-459). -/
def ipAdapterInitParams : List String :=
  ["target", "image_encoder", "image_proj", "scale", "fine_grained",
   "weights", "strict", "use_timestep_embedding",
   "use_pooled_text_embedding", "use_bias", "sequence_length"]

/-- The keyword arguments `SD1IPAdapter.__init__` passes to
`super().__init__` (source `stable_diffusion_1/image_prompt.py` lines
73-87). -/
def sd1SuperKwargs : List String :=
  ["target", "image_encoder", "image_proj", "scale", "fine_grained",
   "weights", "strict", "use_timestep_embedding",
   "use_pooled_text_embedding", "use_bias", "sequence_length",
   "layernorm_dino", "weighted_sum"]

/-- The parameters `LayerNorm.__init__` accepts (source `norm.py` lines
35-50). -/
def layerNormInitParams : List String :=
  ["normalized_shape", "eps", "use_bias", "device", "dtype"]

/-- The keyword arguments `ImageProjection.__init__` (line 46) and
`PerceiverAttention.__init__` (line 134) pass to `fl.LayerNorm` — note
the keyword `bias`, while the parameter is named `use_bias`. -/
def layerNormCallKwargs : List String :=
  ["normalized_shape", "bias", "device", "dtype"]

/-- Python keyword binding at a call site: the first keyword the callee
does not accept raises `TypeError`. -/
def bindKwargs (params kwargs : List String) : Except PyErr Unit :=
  match kwargs.find? (fun k => ! params.contains k) with
  | some k => .error (.typeError k)
  | none => .ok ()

/-- `SD1IPAdapter.__init__` (source `stable_diffusion_1/image_prompt.py`
lines 46-87).  The default image-encoder construction is an external
collaborator and succeeds.  When `image_proj` is `None`,
`get_sd1_image_proj` constructs an `ImageProjection` (or, fine-grained,
a `PerceiverResampler`), and both constructors call `fl.LayerNorm` with
the keyword `bias`; when `image_proj` is supplied and `fine_grained` is
set, `assert isinstance(image_proj, PerceiverResampler)` runs; only then
is `super().__init__` called with `sd1SuperKwargs`. -/
def SD1IPAdapter.init (image_proj : Option ProjKind)
    (fine_grained : Bool) : Except PyErr Unit :=
  let pre : Except PyErr Unit :=
    match image_proj with
    | none => bindKwargs layerNormInitParams layerNormCallKwargs
    | some kind =>
      if fine_grained && decide (¬ kind = ProjKind.perceiverResampler)
      then .error .assertionError
      else .ok ()
  match pre with
  | .error e => .error e
  | .ok _ => bindKwargs ipAdapterInitParams sd1SuperKwargs

/-- Is an exception a `TypeError`? -/
def PyErr.isTypeErr : PyErr → Bool
  | .typeError _ => true
  | _ => false

/-- The local names in scope inside `LayerNormTorch.__init__` (its
parameters, source `norm.py` lines 10-17). -/
def layerNormTorchInitLocals : List String :=
  ["self", "normalized_shape", "eps", "use_bias", "device", "dtype"]

/-- The module-level names of `norm.py`: its imports (lines 1-5) and its
top-level classes. -/
def normPyModuleNames : List String :=
  ["Float", "Tensor", "Device", "DType", "nn", "ones", "sqrt", "zeros",
   "Parameter", "layer_norm", "Module", "WeightedModule",
   "LayerNormTorch", "LayerNorm", "GroupNorm", "LayerNorm2d",
   "InstanceNorm2d"]

/-- `LayerNormTorch.__init__` (source `norm.py` lines 10-29): store
`dim` (a singleton for an `int` shape, the tuple otherwise) and the
`weight` parameter, then line 28 evaluates
`Parameter(zeros(self.dim)) if bias else None`.  The name `bias` is
resolved against the locals, then the module globals (Python builtins
define no `bias`); an unresolvable name raises `NameError`.  The
returned state is `(dim, eps)` with the tensors opaque. -/
def LayerNormTorch.init (normalized_shape : Nat ⊕ List Nat) (eps : ℚ)
    (use_bias : Bool) : Except PyErr (List Nat × ℚ) :=
  let dim := match normalized_shape with
    | .inl n => [n]
    | .inr l => l
  if (layerNormTorchInitLocals ++ normPyModuleNames).contains "bias"
  then .ok (dim, eps)
  else .error (.nameError "bias")

/-- `LayerNorm.__init__` (source `norm.py` lines 35-50): forwards
`normalized_shape`, `eps`, `use_bias` (all accepted keywords) to
`LayerNormTorch.__init__`. -/
def LayerNorm.init (normalized_shape : Nat ⊕ List Nat) (eps : ℚ)
    (use_bias : Bool) : Except PyErr (List Nat × ℚ) :=
  LayerNormTorch.init normalized_shape eps use_bias

/-- Strong induction over module trees: to prove `P t` it is enough to
prove `P` at a node from `P` at all its children. -/
theorem Mod.inductionOn {P : Mod → Prop}
    (h : ∀ i k cs, (∀ c ∈ cs, P c) → P (Mod.node i k cs)) : ∀ t, P t := by
  have key : ∀ n t, sizeOf t ≤ n → P t := by
    intro n
    induction n with
    | zero =>
      intro t ht
      cases t with
      | node i k cs => simp at ht
    | succ n ih =>
      intro t ht
      cases t with
      | node i k cs =>
        apply h
        intro c hc
        apply ih
        have hlt := List.sizeOf_lt_of_mem hc
        simp at ht
        omega
  exact fun t => key (sizeOf t) t le_rfl

theorem countL_eq_sum (x : Nat) (cs : List Mod) :
    countL x cs = (cs.map (count x)).sum := by
  induction cs with
  | nil => rfl
  | cons c cs ih => simp [countL, ih]

theorem count_node (x i : Nat) (k : String) (cs : List Mod) :
    count x (.node i k cs) = (if i = x then 1 else 0) + countL x cs := rfl

theorem countL_eq_zero {x : Nat} {cs : List Mod} (h : countL x cs = 0) :
    ∀ c ∈ cs, count x c = 0 := by
  induction cs with
  | nil => intro c hc; simp at hc
  | cons d cs ih =>
    intro c hc
    have h' : count x d + countL x cs = 0 := h
    rcases List.mem_cons.mp hc with rfl | hmem
    · omega
    · exact ih (by omega) c hmem

theorem replaceByIdL_eq_map (tid : Nat) (new : Mod) (cs : List Mod) :
    replaceByIdL tid new cs = cs.map (replaceById tid new) := by
  induction cs with
  | nil => rfl
  | cons c cs ih => simp [replaceByIdL, ih]

theorem map_eq_self_of {α : Type} {f : α → α} :
    ∀ {l : List α}, (∀ a ∈ l, f a = a) → l.map f = l := by
  intro l
  induction l with
  | nil => intro _; rfl
  | cons a l ih =>
    intro h
    simp only [List.map_cons]
    rw [h a (by simp), ih (fun b hb => h b (by simp [hb]))]

/-- Replacing an identity that does not occur in the tree is a no-op. -/
theorem replaceById_noop {x : Nat} {new : Mod} :
    ∀ t, count x t = 0 → replaceById x new t = t := by
  intro t
  induction t using Mod.inductionOn with
  | h i k cs ih =>
    intro hc
    rw [count_node] at hc
    have hi : ¬ i = x := by by_contra hix; simp [hix] at hc
    have hcs : countL x cs = 0 := by omega
    simp only [replaceById, hi, if_false, replaceByIdL_eq_map]
    congr 1
    exact map_eq_self_of (fun c hc => ih c hc (countL_eq_zero hcs c hc))

theorem count_eq (x : Nat) (t : Mod) :
    count x t = (if t.id = x then 1 else 0) + countL x t.children := by
  cases t; rfl

theorem Mod.eta (t : Mod) : Mod.node t.id t.kind t.children = t := by
  cases t; rfl

theorem idNodesL_mem {x : Nat} {s c : Mod} :
    ∀ {cs : List Mod}, c ∈ cs → s ∈ idNodes x c → s ∈ idNodesL x cs := by
  intro cs
  induction cs with
  | nil => intro h; simp at h
  | cons d cs ih =>
    intro hc hs
    rcases List.mem_cons.mp hc with rfl | hmem
    · exact List.mem_append.mpr (Or.inl hs)
    · exact List.mem_append.mpr (Or.inr (ih hmem hs))

theorem idNodes_self {x i : Nat} {k : String} {cs : List Mod} (h : i = x) :
    Mod.node i k cs ∈ idNodes x (Mod.node i k cs) := by
  simp [idNodes, h]

theorem injectAll_nil (t : Mod) : injectAll [] t = t := rfl

theorem injectAll_cons (q : SubQ) (qs : List SubQ) (t : Mod) :
    injectAll (q :: qs) t = injectAll qs (replaceById q.tid q.wrap t) := rfl

theorem ejectAll_cons (q : SubQ) (qs : List SubQ) (t : Mod) :
    ejectAll (q :: qs) t = ejectAll qs (replaceById q.wid q.orig t) := rfl

theorem injectAll_append (qs rs : List SubQ) (t : Mod) :
    injectAll (qs ++ rs) t = injectAll rs (injectAll qs t) :=
  List.foldl_append ..

theorem ejectAll_append (qs rs : List SubQ) (t : Mod) :
    ejectAll (qs ++ rs) t = ejectAll rs (ejectAll qs t) :=
  List.foldl_append ..

theorem injectAll_noop {qs : List SubQ} :
    ∀ {t : Mod}, (∀ q ∈ qs, count q.tid t = 0) → injectAll qs t = t := by
  induction qs with
  | nil => intro t _; rfl
  | cons q qs ih =>
    intro t h
    rw [injectAll_cons, replaceById_noop t (h q (by simp))]
    exact ih (fun p hp => h p (by simp [hp]))

theorem ejectAll_noop {qs : List SubQ} :
    ∀ {t : Mod}, (∀ q ∈ qs, count q.wid t = 0) → ejectAll qs t = t := by
  induction qs with
  | nil => intro t _; rfl
  | cons q qs ih =>
    intro t h
    rw [ejectAll_cons, replaceById_noop t (h q (by simp))]
    exact ih (fun p hp => h p (by simp [hp]))

theorem injectAll_node {qs : List SubQ} :
    ∀ {i : Nat} {k : String} {cs : List Mod}, (∀ q ∈ qs, q.tid ≠ i) →
      injectAll qs (.node i k cs) = .node i k (cs.map (injectAll qs)) := by
  induction qs with
  | nil =>
    intro i k cs _
    exact congrArg (Mod.node i k) (map_eq_self_of (fun c _ => rfl)).symm
  | cons q qs ih =>
    intro i k cs h
    rw [injectAll_cons]
    have hq : ¬ i = q.tid := fun he => h q (by simp) he.symm
    simp only [replaceById, hq, if_false, replaceByIdL_eq_map]
    rw [ih (fun p hp => h p (by simp [hp])), List.map_map]
    rfl

theorem ejectAll_node {qs : List SubQ} :
    ∀ {i : Nat} {k : String} {cs : List Mod}, (∀ q ∈ qs, q.wid ≠ i) →
      ejectAll qs (.node i k cs) = .node i k (cs.map (ejectAll qs)) := by
  induction qs with
  | nil =>
    intro i k cs _
    exact congrArg (Mod.node i k) (map_eq_self_of (fun c _ => rfl)).symm
  | cons q qs ih =>
    intro i k cs h
    rw [ejectAll_cons]
    have hq : ¬ i = q.wid := fun he => h q (by simp) he.symm
    simp only [replaceById, hq, if_false, replaceByIdL_eq_map]
    rw [ih (fun p hp => h p (by simp [hp])), List.map_map]
    rfl

theorem treeOK_child {qs : List SubQ} {i : Nat} {k : String} {cs : List Mod}
    (h : TreeOK qs (.node i k cs)) : ∀ c ∈ cs, TreeOK qs c := by
  intro c hc
  obtain ⟨h1, h2⟩ := h
  constructor
  · intro q hq
    have := h1 q hq
    rw [count_node] at this
    exact countL_eq_zero (by omega) c hc
  · intro q hq s hs
    exact h2 q hq s (by
      simp only [idNodes]
      exact List.mem_append.mpr (Or.inr (idNodesL_mem hc hs)))

theorem replaceById_root {x : Nat} {new t : Mod} (h : t.id = x) :
    replaceById x new t = new := by
  cases t with
  | node i k cs =>
    have hi : i = x := h
    simp [replaceById, hi]

/-- Injecting a well-formed family of sub-adapters and then ejecting it
(in the same order, as `IPAdapter.inject`/`IPAdapter.eject` do) restores
the tree exactly. -/
theorem subAdapters_roundtrip (qs : List SubQ) (hqs : QsOK qs) :
    ∀ t, TreeOK qs t → ejectAll qs (injectAll qs t) = t := by
  obtain ⟨hpair, hcross, hroots, hwrap, horig⟩ := hqs
  intro t
  induction t using Mod.inductionOn with
  | h i k cs ih =>
    intro htree
    obtain ⟨hfresh, hmatch⟩ := htree
    by_cases hex : ∃ q ∈ qs, q.tid = i
    · obtain ⟨q, hqmem, hqi⟩ := hex
      obtain ⟨pre, post, rfl⟩ := List.append_of_mem hqmem
      have hpre_mem : ∀ p ∈ pre, p ∈ pre ++ q :: post := by
        intro p hp; exact List.mem_append.mpr (Or.inl hp)
      have hpost_mem : ∀ p ∈ post, p ∈ pre ++ q :: post := by
        intro p hp
        exact List.mem_append.mpr (Or.inr (List.mem_cons.mpr (Or.inr hp)))
      have hpairs := List.pairwise_append.mp hpair
      have hRpre : ∀ p ∈ pre, p.tid ≠ q.tid ∧ p.wid ≠ q.wid := by
        intro p hp; exact hpairs.2.2 p hp q (by simp)
      have hRpost : ∀ p ∈ post, q.tid ≠ p.tid ∧ q.wid ≠ p.wid := by
        intro p hp
        exact (List.pairwise_cons.mp hpairs.2.1).1 p hp
      have horig_node : Mod.node i k cs = q.orig :=
        hmatch q hqmem (Mod.node i k cs) (idNodes_self hqi.symm)
      have hcs_orig : cs = q.orig.children := congrArg Mod.children horig_node
      -- inject: the prefix is a no-op, `q` plants its chain, the suffix
      -- is a no-op on the planted chain
      have hpre_inj : ∀ p ∈ pre, count p.tid (Mod.node i k cs) = 0 := by
        intro p hp
        rw [count_node]
        have h1 : ¬ i = p.tid := by
          intro he
          apply (hRpre p hp).1
          rw [← he, hqi]
        have h2 : countL p.tid cs = 0 := by
          rw [hcs_orig]
          exact horig q hqmem p (hpre_mem p hp)
        simp [h1, h2]
      have hpost_inj : ∀ p ∈ post, count p.tid q.wrap = 0 := by
        intro p hp
        rw [count_eq]
        have h1 : q.wrap.id ≠ p.tid := by
          rw [(hroots q hqmem).1]
          exact hcross q hqmem p (hpost_mem p hp)
        have h2 := (hwrap q hqmem p (hpost_mem p hp)).1
        simp [h1, h2]
      have hinj : injectAll (pre ++ q :: post) (Mod.node i k cs) = q.wrap := by
        rw [injectAll_append, injectAll_noop hpre_inj, injectAll_cons,
          replaceById_root (show (Mod.node i k cs).id = q.tid from hqi.symm),
          injectAll_noop hpost_inj]
      rw [hinj]
      -- eject: the prefix is a no-op, `q` restores its original, the
      -- suffix is a no-op on the restored original
      have hpre_ej : ∀ p ∈ pre, count p.wid q.wrap = 0 := by
        intro p hp
        rw [count_eq]
        have h1 : q.wrap.id ≠ p.wid := by
          rw [(hroots q hqmem).1]
          exact fun he => (hRpre p hp).2 he.symm
        have h2 := (hwrap q hqmem p (hpre_mem p hp)).2
        simp [h1, h2]
      have hpost_ej : ∀ p ∈ post, count p.wid q.orig = 0 := by
        intro p hp
        rw [← horig_node]
        exact hfresh p (hpost_mem p hp)
      rw [ejectAll_append, ejectAll_noop hpre_ej, ejectAll_cons,
        replaceById_root (hroots q hqmem).1,
        ejectAll_noop hpost_ej]
      exact horig_node.symm
    · push_neg at hex
      have hni : ∀ q ∈ qs, q.tid ≠ i := hex
      have hwi : ∀ q ∈ qs, q.wid ≠ i := by
        intro p hp
        have := hfresh p hp
        rw [count_node] at this
        intro he
        simp [he] at this
      rw [injectAll_node hni, ejectAll_node hwi, List.map_map]
      exact congrArg (Mod.node i k)
        (map_eq_self_of (fun c hc =>
          ih c hc (treeOK_child ⟨hfresh, hmatch⟩ c hc)))

theorem injectAll_ne_root {qs : List SubQ} {t : Mod}
    (h : ∀ q ∈ qs, q.tid ≠ t.id) :
    injectAll qs t = .node t.id t.kind (t.children.map (injectAll qs)) := by
  cases t with
  | node i k cs => exact injectAll_node h

theorem ejectAll_ne_root {qs : List SubQ} {t : Mod}
    (h : ∀ q ∈ qs, q.wid ≠ t.id) :
    ejectAll qs t = .node t.id t.kind (t.children.map (ejectAll qs)) := by
  cases t with
  | node i k cs => exact ejectAll_node h

theorem getD_set_self {α : Type} :
    ∀ (l : List α) (k : Nat) (v d : α), k < l.length →
      (l.set k v).getD k d = v := by
  intro l
  induction l with
  | nil => intro k v d h; simp at h
  | cons a l ih =>
    intro k v d h
    cases k with
    | zero => rfl
    | succ k => exact ih k v d (by simpa using h)

theorem set_getD_self {α : Type} :
    ∀ (l : List α) (k : Nat) (d : α), k < l.length →
      l.set k (l.getD k d) = l := by
  intro l
  induction l with
  | nil => intro k d h; simp at h
  | cons a l ih =>
    intro k d h
    cases k with
    | zero => rfl
    | succ k =>
      have := ih k d (by simpa using h)
      simp only [List.set_cons_succ]
      rw [show (a :: l).getD (k + 1) d = l.getD k d from rfl, this]

/-- Ejecting right after injecting puts the original target object back
into its parent slot `k` (shared computation behind the lifecycle
claims). -/
theorem ipEject_ipInject_eq_set
    (qs : List SubQ) (usePooled : Bool) (proj : Mod) (aid : Nat)
    (cs : List Mod) (k : Nat)
    (hk : k < cs.length)
    (hqs : QsOK qs)
    (ht : TreeOK qs (cs.getD k defaultMod))
    (hroot : ∀ q ∈ qs, q.tid ≠ (cs.getD k defaultMod).id)
    (hproj : ∀ q ∈ qs, count q.wid proj = 0) :
    (IPAdapter.eject qs usePooled
      (IPAdapter.inject qs usePooled proj aid cs k).1 k).1
      = cs.set k (cs.getD k defaultMod) := by
  cases hT : cs.getD k defaultMod with
  | node ti tk tcs =>
  rw [hT] at ht hroot
  have hroot' : ∀ q ∈ qs, ¬ q.tid = ti := hroot
  have hwid_root : ∀ q ∈ qs, ¬ q.wid = ti := by
    intro q hq he
    have := ht.1 q hq
    rw [count_node, he] at this
    simp at this
  have hrestored :
      (if usePooled then
         popChild (ejectAll qs
           (if usePooled then
              insertChild (injectAll qs (Mod.node ti tk tcs)) 0 proj
            else injectAll qs (Mod.node ti tk tcs))) 0
       else ejectAll qs
         (if usePooled then
            insertChild (injectAll qs (Mod.node ti tk tcs)) 0 proj
          else injectAll qs (Mod.node ti tk tcs)))
        = Mod.node ti tk tcs := by
    have hkids : tcs.map (ejectAll qs ∘ injectAll qs) = tcs :=
      map_eq_self_of (fun c hc =>
        subAdapters_roundtrip qs hqs c (treeOK_child ht c hc))
    cases usePooled with
    | false =>
      simp only [if_false, Bool.false_eq_true]
      exact subAdapters_roundtrip qs hqs _ ht
    | true =>
      simp only [if_true]
      rw [injectAll_node hroot']
      rw [show insertChild (Mod.node ti tk (tcs.map (injectAll qs))) 0 proj
            = Mod.node ti tk (proj :: tcs.map (injectAll qs)) from rfl]
      rw [ejectAll_node hwid_root]
      simp only [List.map_cons, List.map_map]
      rw [ejectAll_noop (fun q hq => hproj q hq), hkids]
      rfl
  simp only [IPAdapter.inject, IPAdapter.eject, hT]
  rw [getD_set_self cs k _ defaultMod hk]
  simp only [Mod.children, List.getD_cons_zero]
  rw [List.set_set, hrestored]

/-- C1: for every adapter built around a target module inside a parent
chain — a well-formed family of sub-adapters, optionally with the pooled
text-embedding projector — performing `inject` and then `eject` restores
the parent's child list element-wise (identity tags model object
identity); in particular with `use_pooled_text_embedding` the auxiliary
projector inserted at injection is removed again and no wrapper nodes
accumulate. -/
theorem C1_inject_eject_restores_parent
    (qs : List SubQ) (usePooled : Bool) (proj : Mod) (aid : Nat)
    (cs : List Mod) (k : Nat)
    (hk : k < cs.length)
    (hqs : QsOK qs)
    (ht : TreeOK qs (cs.getD k defaultMod))
    (hroot : ∀ q ∈ qs, q.tid ≠ (cs.getD k defaultMod).id)
    (hproj : ∀ q ∈ qs, count q.wid proj = 0) :
    (IPAdapter.eject qs usePooled
      (IPAdapter.inject qs usePooled proj aid cs k).1 k).1 = cs := by
  rw [ipEject_ipInject_eq_set qs usePooled proj aid cs k hk hqs ht hroot hproj]
  exact set_getD_self cs k defaultMod hk

/-- Witness for C1: a parent chain holding a U-Net with one attention
module, one sub-adapter and the pooled projector; inject then eject gives
back the original child list. -/
theorem C1_witness :
    (IPAdapter.eject
      [⟨2, 10, .node 10 "CrossAttentionAdapter" [.node 11 "Clone" []],
        .node 2 "Attention" []⟩] true
      (IPAdapter.inject
        [⟨2, 10, .node 10 "CrossAttentionAdapter" [.node 11 "Clone" []],
          .node 2 "Attention" []⟩] true
        (.node 20 "PooledTextEmbeddingTimestepEncoder" []) 30
        [.node 5 "Other" [], .node 1 "SD1UNet" [.node 2 "Attention" []]]
        1).1 1).1
      = [.node 5 "Other" [], .node 1 "SD1UNet" [.node 2 "Attention" []]] :=
  C1_inject_eject_restores_parent _ _ _ _ _ _ (by decide) (by decide)
    (by decide) (by decide) (by decide)

/-- With `use_pooled_text_embedding`, injection leaves the parent slot
holding the adapter chain, whose single child is the target with the
pooled projector inserted at position 0 of the target's own child list
and every sub-adapter already injected below it. -/
theorem ipInject_state_pooled (qs : List SubQ) (proj : Mod) (aid : Nat)
    (cs : List Mod) (k : Nat)
    (hroot : ∀ q ∈ qs, ¬ q.tid = (cs.getD k defaultMod).id) :
    (IPAdapter.inject qs true proj aid cs k).1
      = cs.set k (.node aid "IPAdapter"
          [.node (cs.getD k defaultMod).id (cs.getD k defaultMod).kind
            (proj :: (cs.getD k defaultMod).children.map (injectAll qs))]) := by
  cases hT : cs.getD k defaultMod with
  | node ti tk tcs =>
  rw [hT] at hroot
  have hroot' : ∀ q ∈ qs, ¬ q.tid = ti := hroot
  simp only [IPAdapter.inject, hT]
  rw [injectAll_node hroot']
  rfl

/-- With `use_pooled_text_embedding`, the injection trace is: all
sub-adapter injections first, then the insertion of the pooled projector
at position 0 of the target chain, then the adapter's own slot
replacement in the parent. -/
theorem ipInject_trace_pooled (qs : List SubQ) (proj : Mod) (aid : Nat)
    (cs : List Mod) (k : Nat)
    (hroot : ∀ q ∈ qs, ¬ q.tid = (cs.getD k defaultMod).id) :
    (IPAdapter.inject qs true proj aid cs k).2
      = qs.map (fun q => AdapterEv.injectSub q.tid)
        ++ [AdapterEv.insertAux (cs.getD k defaultMod).id 0]
        ++ [AdapterEv.replaceParentSlot k] := by
  cases hT : cs.getD k defaultMod with
  | node ti tk tcs =>
  rw [hT] at hroot
  have hroot' : ∀ q ∈ qs, ¬ q.tid = ti := hroot
  simp only [IPAdapter.inject, hT]
  rw [injectAll_node hroot']
  rfl

/-- C5 counterexample: the pooled projector is not prepended to the
target's parent chain — after injection the parent's child list does not
contain it at position 0 (nor anywhere else as a direct child). -/
theorem C5_counterexample :
    ((IPAdapter.inject
        [⟨2, 10, .node 10 "CrossAttentionAdapter" [.node 11 "Clone" []],
          .node 2 "Attention" []⟩] true
        (.node 20 "PooledTextEmbeddingTimestepEncoder" []) 30
        [.node 5 "Other" [], .node 1 "SD1UNet" [.node 2 "Attention" []]]
        1).1.getD 0 defaultMod
      ≠ Mod.node 20 "PooledTextEmbeddingTimestepEncoder" [])
    ∧ Mod.node 20 "PooledTextEmbeddingTimestepEncoder" [] ∉
      (IPAdapter.inject
        [⟨2, 10, .node 10 "CrossAttentionAdapter" [.node 11 "Clone" []],
          .node 2 "Attention" []⟩] true
        (.node 20 "PooledTextEmbeddingTimestepEncoder" []) 30
        [.node 5 "Other" [], .node 1 "SD1UNet" [.node 2 "Attention" []]]
        1).1 := by
  decide

/-- C5 (amended): `IPAdapter.inject` injects all sub-adapters first, and
with `use_pooled_text_embedding` then inserts the pooled projector at
position 0 of the target chain itself (not of the target's parent),
before completing its own injection by replacing the target's parent
slot. -/
theorem C5_inject_order_and_placement (qs : List SubQ) (proj : Mod)
    (aid : Nat) (cs : List Mod) (k : Nat)
    (hroot : ∀ q ∈ qs, ¬ q.tid = (cs.getD k defaultMod).id) :
    (IPAdapter.inject qs true proj aid cs k).2
      = qs.map (fun q => AdapterEv.injectSub q.tid)
        ++ [AdapterEv.insertAux (cs.getD k defaultMod).id 0]
        ++ [AdapterEv.replaceParentSlot k]
    ∧ (IPAdapter.inject qs true proj aid cs k).1
      = cs.set k (.node aid "IPAdapter"
          [.node (cs.getD k defaultMod).id (cs.getD k defaultMod).kind
            (proj :: (cs.getD k defaultMod).children.map (injectAll qs))]) :=
  ⟨ipInject_trace_pooled qs proj aid cs k hroot,
   ipInject_state_pooled qs proj aid cs k hroot⟩

/-- Witness for C5 (amended), at the concrete one-sub-adapter
case. -/
theorem C5_witness :
    (IPAdapter.inject
      [⟨2, 10, .node 10 "CrossAttentionAdapter" [.node 11 "Clone" []],
        .node 2 "Attention" []⟩] true
      (.node 20 "PooledTextEmbeddingTimestepEncoder" []) 30
      [.node 5 "Other" [], .node 1 "SD1UNet" [.node 2 "Attention" []]]
      1).2
      = [AdapterEv.injectSub 2, AdapterEv.insertAux 1 0,
         AdapterEv.replaceParentSlot 1] := by
  have h := C5_inject_order_and_placement
    [⟨2, 10, .node 10 "CrossAttentionAdapter" [.node 11 "Clone" []],
      .node 2 "Attention" []⟩]
    (.node 20 "PooledTextEmbeddingTimestepEncoder" []) 30
    [.node 5 "Other" [], .node 1 "SD1UNet" [.node 2 "Attention" []]]
    1 (by decide)
  rw [h.1]
  decide

/-- C6 counterexample: at a concrete injected instance the eject trace
runs sub-adapter ejection, then the `pop(0)` of the auxiliary projector,
then the parent-slot restoration — not restoration before removal as the
claim orders the steps. -/
theorem C6_counterexample :
    (IPAdapter.eject
        [⟨2, 10, .node 10 "CrossAttentionAdapter" [.node 11 "Clone" []],
          .node 2 "Attention" []⟩] true
        (IPAdapter.inject
          [⟨2, 10, .node 10 "CrossAttentionAdapter" [.node 11 "Clone" []],
            .node 2 "Attention" []⟩] true
          (.node 20 "PooledTextEmbeddingTimestepEncoder" []) 30
          [.node 5 "Other" [], .node 1 "SD1UNet" [.node 2 "Attention" []]]
          1).1 1).2
      = [AdapterEv.ejectSub 2, AdapterEv.popAux 1 0,
         AdapterEv.restoreParentSlot 1]
    ∧ [AdapterEv.ejectSub 2, AdapterEv.popAux 1 0,
       AdapterEv.restoreParentSlot 1]
      ≠ [AdapterEv.ejectSub 2, AdapterEv.restoreParentSlot 1,
         AdapterEv.popAux 1 0] := by
  decide

/-- C6 (amended): `IPAdapter.eject` ejects all sub-adapters first, then
removes the auxiliary pooled projector (popping position 0 of the target
chain), and only then restores the parent's child slot to the original
target object. -/
theorem C6_eject_order (qs : List SubQ) (proj : Mod) (aid : Nat)
    (cs : List Mod) (k : Nat)
    (hk : k < cs.length)
    (hqs : QsOK qs)
    (ht : TreeOK qs (cs.getD k defaultMod))
    (hroot : ∀ q ∈ qs, ¬ q.tid = (cs.getD k defaultMod).id)
    (hproj : ∀ q ∈ qs, count q.wid proj = 0) :
    (IPAdapter.eject qs true (IPAdapter.inject qs true proj aid cs k).1 k).2
      = qs.map (fun q => AdapterEv.ejectSub q.tid)
        ++ [AdapterEv.popAux (cs.getD k defaultMod).id 0]
        ++ [AdapterEv.restoreParentSlot k]
    ∧ (IPAdapter.eject qs true (IPAdapter.inject qs true proj aid cs k).1 k).1
      = cs.set k (cs.getD k defaultMod) := by
  constructor
  · rw [ipInject_state_pooled qs proj aid cs k hroot]
    have hwid_root : ∀ q ∈ qs, ¬ q.wid = (cs.getD k defaultMod).id := by
      intro q hq he
      have h0 := ht.1 q hq
      rw [count_eq, he] at h0
      simp at h0
    simp only [IPAdapter.eject]
    rw [getD_set_self cs k _ defaultMod hk]
    simp only [Mod.children, List.getD_cons_zero]
    rw [ejectAll_node hwid_root]
    rfl
  · exact ipEject_ipInject_eq_set qs true proj aid cs k hk hqs ht hroot hproj

/-- Witness for C6 (amended), at the concrete one-sub-adapter
case. -/
theorem C6_witness :
    (IPAdapter.eject
        [⟨2, 10, .node 10 "CrossAttentionAdapter" [.node 11 "Clone" []],
          .node 2 "Attention" []⟩] true
        (IPAdapter.inject
          [⟨2, 10, .node 10 "CrossAttentionAdapter" [.node 11 "Clone" []],
            .node 2 "Attention" []⟩] true
          (.node 20 "PooledTextEmbeddingTimestepEncoder" []) 30
          [.node 5 "Other" [], .node 1 "SD1UNet" [.node 2 "Attention" []]]
          1).1 1).1
      = [Mod.node 5 "Other" [],
         Mod.node 1 "SD1UNet" [.node 2 "Attention" []]].set 1
          (Mod.node 1 "SD1UNet" [.node 2 "Attention" []]) := by
  have h := C6_eject_order
    [⟨2, 10, .node 10 "CrossAttentionAdapter" [.node 11 "Clone" []],
      .node 2 "Attention" []⟩]
    (.node 20 "PooledTextEmbeddingTimestepEncoder" []) 30
    [.node 5 "Other" [], .node 1 "SD1UNet" [.node 2 "Attention" []]]
    1 (by decide) (by decide) (by decide) (by decide) (by decide)
  exact h.2

/-- C7: setting `scale = s` on a composite `IPAdapter` drives every
sub-adapter's `Multiply` multiplier to exactly `s`, reading `scale` back
returns `s`, and the injection flag is neither consulted nor changed
(the statement holds for both values of `p.injected`). -/
theorem C7_scale_propagates (p : IPAdapterSc) (s : ℚ)
    (hne : p.sub_adapters ≠ []) :
    (∀ c ∈ (p.setScale s).sub_adapters,
        c.image_cross_attention.multiplyScale = s ∧ c._scale = s)
    ∧ (p.setScale s).getScale = some s
    ∧ (p.setScale s).injected = p.injected := by
  refine ⟨?_, ?_, rfl⟩
  · intro c hc
    simp only [IPAdapterSc.setScale, List.mem_map] at hc
    obtain ⟨a, _, rfl⟩ := hc
    exact ⟨rfl, rfl⟩
  · cases hl : p.sub_adapters with
    | nil => exact absurd hl hne
    | cons a l =>
      simp [IPAdapterSc.setScale, IPAdapterSc.getScale, hl,
        CrossAttentionAdapterSc.setScale]

/-- Witness for C7 at a two-sub-adapter, injected instance and
`s = 7/2`. -/
theorem C7_witness :
    (∀ c ∈ ((⟨[⟨1, ⟨1, 1⟩⟩, ⟨2, ⟨2, 2⟩⟩], true⟩ :
        IPAdapterSc).setScale (7/2)).sub_adapters,
      c.image_cross_attention.multiplyScale = 7/2 ∧ c._scale = 7/2)
    ∧ ((⟨[⟨1, ⟨1, 1⟩⟩, ⟨2, ⟨2, 2⟩⟩], true⟩ :
        IPAdapterSc).setScale (7/2)).getScale = some (7/2)
    ∧ ((⟨[⟨1, ⟨1, 1⟩⟩, ⟨2, ⟨2, 2⟩⟩], true⟩ :
        IPAdapterSc).setScale (7/2)).injected
      = (⟨[⟨1, ⟨1, 1⟩⟩, ⟨2, ⟨2, 2⟩⟩], true⟩ : IPAdapterSc).injected :=
  C7_scale_propagates ⟨[⟨1, ⟨1, 1⟩⟩, ⟨2, ⟨2, 2⟩⟩], true⟩ (7/2)
    (by decide)

/-- C4 counterexample: with `strict = true`, a weight map whose
`image_proj.` block has an unmatched supplied key and a missing required
parameter, and whose `ip_adapter.000.` block has an unmatched key,
loads without failing — the image-projection mismatch is a strict-load
error yet the overall load succeeds. -/
theorem C4_counterexample :
    (IPAdapter.loadWeights
        ⟨["weight"], [["to_k.weight"]], [], false⟩
        [("image_proj.bogus", 0), ("ip_adapter.000.bogus", 1)]
        true).isOk = true
    ∧ load_state_dict ["weight"]
        (blockDict "image_proj."
          [("image_proj.bogus", 0), ("ip_adapter.000.bogus", 1)]) true
      = .error .weightMismatch := by
  decide

/-- C4 (amended): under `strict = true` only the
`pooled_text_embedding_proj.` block is fatal on a mismatch; a mismatch
in the `image_proj.` block is caught, printed and ignored, and the
`ip_adapter.{i:03d}.` blocks are always loaded with `strict=False`, so
neither can abort loading. -/
theorem C4_only_pooled_block_fatal (cfg : IPWeightCfg)
    (weights : List (String × Nat)) (strict : Bool) :
    IPAdapter.loadWeights cfg weights strict
      = (if cfg.usePooled && (strict && strictMismatch cfg.pooledParams
            (blockDict "pooled_text_embedding_proj." weights)) then
           Except.error LoadErr.weightMismatch
         else
           Except.ok (if strict && strictMismatch cfg.imageProjParams
              (blockDict "image_proj." weights) then
             ["image_proj mismatch printed and ignored"]
           else [])) := by
  unfold IPAdapter.loadWeights load_state_dict
  cases hup : cfg.usePooled <;> cases hs : strict <;>
    cases hm1 : strictMismatch cfg.imageProjParams
      (blockDict "image_proj." weights) <;>
    cases hm2 : strictMismatch cfg.pooledParams
      (blockDict "pooled_text_embedding_proj." weights) <;>
    simp [hup, hs, hm1, hm2]

/-- C2: for every sample, noise and valid step index the DDIM step
returns `a_prev * x0 + sqrt(1 - a_prev^2) * noise` with
`x0 = (x - sqrt(1 - a^2) * noise) / a`,
`a = csf (timesteps[i])`, and `a_prev = csf (timesteps[i+1])` when `i`
is not last and that timestep is positive, else `csf 0`; at the last
index the sentinel `0` is used and no out-of-range lookup happens (the
result is `some _`, never a failure). -/
theorem C2_ddim_step_formula (csf : Nat → ℚ) (sqrtF : ℚ → ℚ)
    (T n : Nat) (x noise : ℚ) (i : Nat) (hi : i < n) :
    DDIM.step csf sqrtF n (DDIM.generateTimesteps T n) x noise i
      = some
        (let ts := DDIM.generateTimesteps T n
         let a := csf (ts.getD i 0)
         let tprev := if i < n - 1 then ts.getD (i + 1) 0 else 0
         let aprev := if tprev > 0 then csf tprev else csf 0
         aprev * ((x - sqrtF (1 - a ^ 2) * noise) / a)
           + sqrtF (1 - aprev ^ 2) * noise) := by
  have hlen : (DDIM.generateTimesteps T n).length = n := by
    simp [DDIM.generateTimesteps]
  have hi' : i < (DDIM.generateTimesteps T n).length := by omega
  have hv : (DDIM.generateTimesteps T n)[i]?
      = some ((DDIM.generateTimesteps T n)[i]) :=
    List.getElem?_eq_getElem hi'
  have hgetD : (DDIM.generateTimesteps T n).getD i 0
      = (DDIM.generateTimesteps T n)[i] := by
    rw [List.getD_eq_getElem?_getD, hv]; rfl
  by_cases hlast : i < n - 1
  · have hi1 : i + 1 < (DDIM.generateTimesteps T n).length := by omega
    have hw : (DDIM.generateTimesteps T n)[i + 1]?
        = some ((DDIM.generateTimesteps T n)[i + 1]) :=
      List.getElem?_eq_getElem hi1
    have hgetD1 : (DDIM.generateTimesteps T n).getD (i + 1) 0
        = (DDIM.generateTimesteps T n)[i + 1] := by
      rw [List.getD_eq_getElem?_getD, hw]; rfl
    simp only [DDIM.step, hv, hw, if_pos hlast, hgetD, hgetD1]
  · simp only [DDIM.step, hv, if_neg hlast, hgetD]

/-- Witness for C2: at step index 49 of 50 (the last index), with scale
factors `t + 1` and the square root left as the identity, the step
evaluates to `11/2` via the sentinel branch. -/
theorem C2_witness :
    49 < 50 ∧
    DDIM.step (fun t => (t : ℚ) + 1) (fun y => y) 50
      (DDIM.generateTimesteps 1000 50) 2 3 49
      = some
        (let ts := DDIM.generateTimesteps 1000 50
         let a := ((ts.getD 49 0 : ℕ) : ℚ) + 1
         let tprev := if 49 < 50 - 1 then ts.getD (49 + 1) 0 else 0
         let aprev := if tprev > 0 then ((tprev : ℕ) : ℚ) + 1
           else ((0 : ℕ) : ℚ) + 1
         aprev * ((2 - (1 - a ^ 2) * 3) / a) + (1 - aprev ^ 2) * 3) :=
  ⟨by decide,
   C2_ddim_step_formula (fun t => (t : ℚ) + 1) (fun y => y) 1000 50 2 3
     49 (by decide)⟩

/-- C3: with 50 inference steps over 1000 training timesteps the DDIM
timestep sequence has length 50, is strictly decreasing, has minimum 1,
and equals `981, 961, ..., 21, 1`. -/
theorem C3_timesteps_50_of_1000 :
    (DDIM.generateTimesteps 1000 50).length = 50
    ∧ List.Pairwise (fun a b => b < a) (DDIM.generateTimesteps 1000 50)
    ∧ 1 ∈ DDIM.generateTimesteps 1000 50
    ∧ (∀ t ∈ DDIM.generateTimesteps 1000 50, 1 ≤ t)
    ∧ DDIM.generateTimesteps 1000 50
      = [981, 961, 941, 921, 901, 881, 861, 841, 821, 801, 781, 761,
         741, 721, 701, 681, 661, 641, 621, 601, 581, 561, 541, 521,
         501, 481, 461, 441, 421, 401, 381, 361, 341, 321, 301, 281,
         261, 241, 221, 201, 181, 161, 141, 121, 101, 81, 61, 41, 21,
         1] := by
  decide

/-- C8: `compute_image_embedding` satisfies its specification for every
image prompt (tensor, single image, or list of images), weight list,
divisor and concatenation flag. -/
theorem okIf_append_distrib (c : Bool) (neg cond : Tensor3) :
    (if c = true then
       (Except.ok (chunkCatSeq neg ++ chunkCatSeq cond) :
         Except PyErr Tensor3)
     else Except.ok (neg ++ cond))
      = Except.ok ((if c = true then chunkCatSeq neg else neg)
          ++ (if c = true then chunkCatSeq cond else cond)) := by
  cases c <;> rfl

theorem errIf_append_distrib (d c : Bool) (neg cond : Tensor3)
    (e : PyErr) :
    (if d = true then (Except.error e : Except PyErr Tensor3)
     else if c = true then
       Except.ok (chunkCatSeq neg ++ chunkCatSeq cond)
     else Except.ok (neg ++ cond))
      = (if d = true then Except.error e
         else Except.ok ((if c = true then chunkCatSeq neg else neg)
             ++ (if c = true then chunkCatSeq cond else cond))) := by
  cases d <;> cases c <;> rfl

theorem C8_compute_image_embedding_spec {Img : Type}
    (env : IPEmbedEnv Img) (image_prompt : ImagePrompt Img)
    (weights : Option (List ℚ)) (div_factor : ℚ)
    (concat_batches : Bool) :
    IPAdapter.compute_image_embedding env image_prompt weights div_factor
      concat_batches
      = compute_image_embedding_spec env image_prompt weights div_factor
        concat_batches := by
  unfold IPAdapter.compute_image_embedding compute_image_embedding_spec
  cases weights with
  | none => exact okIf_append_distrib _ _ _
  | some w => exact errIf_append_distrib _ _ _ _ _

/-- C9 counterexample: constructing with `fine_grained=True` and a
supplied `ImageProjection` fails with `AssertionError`, not a
`TypeError`. -/
theorem C9_counterexample :
    SD1IPAdapter.init (some ProjKind.imageProjection) true
      = .error PyErr.assertionError
    ∧ PyErr.isTypeErr PyErr.assertionError = false := by
  decide

/-- C9 (amended): `SD1IPAdapter` construction fails for every argument
combination — with `AssertionError` when `fine_grained` is set and an
`ImageProjection` is supplied, otherwise with a `TypeError`: from the
`bias` keyword in the default image-proj construction when `image_proj`
is omitted, or from forwarding `layernorm_dino` (and `weighted_sum`) to
`IPAdapter.__init__`, which accepts neither. -/
theorem C9_sd1_init_always_fails (image_proj : Option ProjKind)
    (fine_grained : Bool) :
    SD1IPAdapter.init image_proj fine_grained
      = (match image_proj, fine_grained with
         | none, _ => .error (.typeError "bias")
         | some ProjKind.imageProjection, true => .error .assertionError
         | some _, _ => .error (.typeError "layernorm_dino")) := by
  cases image_proj with
  | none => cases fine_grained <;> rfl
  | some kind => cases kind <;> cases fine_grained <;> rfl

/-- C10: constructing a `LayerNormTorch` — and therefore a `LayerNorm` —
raises `NameError` on the undefined name `bias` for every argument
combination. -/
theorem C10_layernorm_nameerror (normalized_shape : Nat ⊕ List Nat)
    (eps : ℚ) (use_bias : Bool) :
    LayerNormTorch.init normalized_shape eps use_bias
      = .error (.nameError "bias")
    ∧ LayerNorm.init normalized_shape eps use_bias
      = .error (.nameError "bias") := by
  constructor <;> rfl
